import Mathlib

/-!
Verification of the environment-resolution core of `cloudrun-local`.

The Go sources are embedded shallowly:

* `internal/config` : `Config`, `EnvVar`, `SecretRef`, `parseEnvVars`,
  `extractProjectID` (strings modelled as `List Char` where splitting
  matters, `String` elsewhere);
* `internal/env` : `Resolver.Resolve` and `Resolver.Cleanup`, with the
  Secret Manager client abstracted as a fetch oracle
  `String → String → Except String String`;
* `internal/secrets` : `Client.AccessSecretVersion` over an abstract HTTP
  response (status code plus the base64 payload field), with Go's
  `encoding/base64` standard encoding embedded as `base64Encode` and
  `base64Decode`;
* `internal/auth` : `GetImpersonatedCredentials`,
  `fetchImpersonatedAccessToken`, `createDelegatedCredsFile`,
  `randomLower` and `Credentials.Cleanup`, with the filesystem modelled
  as a list of existing paths and the RNG as a stream of draws below 26.
-/

/-- `config.SecretRef`: a reference to a secret in Secret Manager. -/
structure SecretRef where
  name : String
  key : String
deriving DecidableEq, Repr

/-- `config.EnvVar`: an environment variable from the config. -/
structure EnvVar where
  name : String
  value : String
  secretRef : Option SecretRef
deriving DecidableEq, Repr

/-- `config.Config`: a parsed Cloud Run service configuration. -/
structure Config where
  ServiceName : String
  ServiceAccount : String
  ProjectID : String
  EnvironmentVars : List EnvVar
deriving DecidableEq, Repr

/-- `auth.Credentials`: authentication information. -/
structure Credentials where
  AccessToken : String
  CredsFile : String
deriving DecidableEq, Repr

/-- `env.Resolver`: resolves environment variables from a Cloud Run config.
In the Go source `creds` is a pointer that `NewResolver` always sets. -/
structure Resolver where
  config : Config
  creds : Credentials
deriving DecidableEq, Repr

/-- The loop body of `env.Resolver.Resolve` over the user-defined
environment variables, with the Secret Manager client abstracted as the
oracle `fetch` taking the secret name and key.  A literal value is
emitted as `name=value`; otherwise a present secret reference is fetched
(an error aborts the whole resolution, wrapped as in the Go source) and
a declaration with neither is skipped. -/
def resolveEnvVars (fetch : String → String → Except String String) :
    List EnvVar → Except String (List String)
  | [] => Except.ok []
  | envVar :: rest =>
    if envVar.value ≠ "" then
      (resolveEnvVars fetch rest).map fun tail =>
        (envVar.name ++ "=" ++ envVar.value) :: tail
    else
      match envVar.secretRef with
      | some ref =>
        match fetch ref.name ref.key with
        | Except.error e =>
          Except.error ("access secret " ++ ref.name ++ ": " ++ e)
        | Except.ok secretValue =>
          (resolveEnvVars fetch rest).map fun tail =>
            (envVar.name ++ "=" ++ secretValue) :: tail
      | none => resolveEnvVars fetch rest

/-- `env.Resolver.Resolve`: returns all environment variables as
`KEY=value` strings: the Cloud Run metadata entries first, then the
user-defined entries in declaration order. -/
def Resolver.Resolve (r : Resolver)
    (fetch : String → String → Except String String) :
    Except String (List String) :=
  (resolveEnvVars fetch r.config.EnvironmentVars).map fun entries =>
    (if r.config.ServiceName ≠ "" then
      ["K_SERVICE=" ++ r.config.ServiceName]
    else []) ++
    ["K_REVISION=local",
     "GOOGLE_CLOUD_PROJECT=" ++ r.config.ProjectID,
     "GOOGLE_APPLICATION_CREDENTIALS=" ++ r.creds.CredsFile] ++
    entries

/-- `os.Remove` over a filesystem modelled as the list of existing paths:
removing an existing path succeeds with the path gone, removing a missing
path fails with the usual not-found error. -/
def osRemove (path : String) (fs : List String) : Except String (List String) :=
  if path ∈ fs then Except.ok (fs.erase path)
  else Except.error ("remove " ++ path ++ ": no such file or directory")

/-- `auth.Credentials.Cleanup`: removes the temporary credentials file;
an empty path is a no-op success. -/
def Credentials.Cleanup (c : Credentials) (fs : List String) :
    Except String (List String) :=
  if c.CredsFile = "" then Except.ok fs
  else osRemove c.CredsFile fs

/-- `env.Resolver.Cleanup`: removes temporary files created during
resolution by delegating to the credentials' cleanup. -/
def Resolver.Cleanup (r : Resolver) (fs : List String) :
    Except String (List String) :=
  r.creds.Cleanup fs

/-- Helper: `Except.map` sends an error to the same error. -/
theorem except_map_error {ε α β : Type} (f : α → β) (e : ε) :
    (Except.error e : Except ε α).map f = Except.error e := rfl

/-- Helper: `Except.map` acts on a success. -/
theorem except_map_ok {ε α β : Type} (f : α → β) (a : α) :
    (Except.ok a : Except ε α).map f = Except.ok (f a) := rfl

/-- C1: a successful resolve begins with `K_SERVICE=...` exactly when the
service name is non-empty, then always `K_REVISION=local`,
`GOOGLE_CLOUD_PROJECT=...` and `GOOGLE_APPLICATION_CREDENTIALS=...` in
this order, before every entry derived from an environment declaration. -/
theorem resolve_metadata_header (r : Resolver)
    (fetch : String → String → Except String String)
    (out : List String) (h : r.Resolve fetch = Except.ok out) :
    ∃ rest,
      out = (if r.config.ServiceName = "" then []
              else ["K_SERVICE=" ++ r.config.ServiceName]) ++
            ["K_REVISION=local",
             "GOOGLE_CLOUD_PROJECT=" ++ r.config.ProjectID,
             "GOOGLE_APPLICATION_CREDENTIALS=" ++ r.creds.CredsFile] ++
            rest ∧
      resolveEnvVars fetch r.config.EnvironmentVars = Except.ok rest := by
  unfold Resolver.Resolve at h
  cases hres : resolveEnvVars fetch r.config.EnvironmentVars with
  | error e => rw [hres, except_map_error] at h; cases h
  | ok entries =>
    rw [hres, except_map_ok] at h
    refine ⟨entries, ?_, rfl⟩
    cases h
    by_cases hs : r.config.ServiceName = "" <;> simp [hs]

/-- C1 witness: evaluated on a concrete resolver with a service name and
one literal variable. -/
theorem resolve_metadata_header_witness :
    ∃ rest,
      ["K_SERVICE=svc", "K_REVISION=local", "GOOGLE_CLOUD_PROJECT=proj",
       "GOOGLE_APPLICATION_CREDENTIALS=/tmp/c.json", "FOO=bar"] =
        (if ("svc" : String) = "" then []
          else ["K_SERVICE=" ++ ("svc" : String)]) ++
        ["K_REVISION=local", "GOOGLE_CLOUD_PROJECT=" ++ ("proj" : String),
         "GOOGLE_APPLICATION_CREDENTIALS=" ++ ("/tmp/c.json" : String)] ++
        rest ∧
      resolveEnvVars (fun _ _ => Except.error ("down"))
        [⟨"FOO", "bar", none⟩] = Except.ok rest :=
  resolve_metadata_header
    ⟨⟨"svc", "sa@proj.iam.gserviceaccount.com", "proj",
      [⟨"FOO", "bar", none⟩]⟩, ⟨"tok", "/tmp/c.json"⟩⟩
    (fun _ _ => Except.error ("down"))
    ["K_SERVICE=svc", "K_REVISION=local", "GOOGLE_CLOUD_PROJECT=proj",
     "GOOGLE_APPLICATION_CREDENTIALS=/tmp/c.json", "FOO=bar"]
    (by rfl)

/-- Resolving a list whose first fetch-failing declaration is `v` yields
exactly the wrapped error naming `v`'s secret; every earlier declaration
either carries a literal, carries no reference, or fetches successfully. -/
theorem resolveEnvVars_error_at_first
    (fetch : String → String → Except String String) :
    ∀ (pre : List EnvVar) (v : EnvVar) (post : List EnvVar)
      (ref : SecretRef) (msg : String),
      (∀ w ∈ pre, w.value = "" → ∀ ref2, w.secretRef = some ref2 →
        ∃ s, fetch ref2.name ref2.key = Except.ok s) →
      v.value = "" → v.secretRef = some ref →
      fetch ref.name ref.key = Except.error msg →
      resolveEnvVars fetch (pre ++ v :: post) =
        Except.error ("access secret " ++ ref.name ++ ": " ++ msg)
  | [], v, post, ref, msg, _, hv, href, hfail => by
    simp only [List.nil_append, resolveEnvVars, hv, href]
    simp [hfail]
  | w :: pre, v, post, ref, msg, hpre, hv, href, hfail => by
    have ih := resolveEnvVars_error_at_first fetch pre v post ref msg
      (fun x hx => hpre x (List.mem_cons_of_mem w hx)) hv href hfail
    by_cases hw : w.value = ""
    · cases hwref : w.secretRef with
      | none => simpa [resolveEnvVars, hw, hwref] using ih
      | some ref2 =>
        obtain ⟨s, hs⟩ := hpre w (List.mem_cons_self w pre) hw ref2 hwref
        simp [resolveEnvVars, hw, hwref, hs, ih, except_map_error]
    · simp [resolveEnvVars, hw, ih, except_map_error]

/-- C2: when resolution reaches a declaration whose secret fetch fails
(every earlier declaration being a literal, reference-free, or a
successful fetch), `Resolve` returns an error — no output list at all —
and the error message names that declaration's secret. -/
theorem resolve_fetch_failure_aborts (r : Resolver)
    (fetch : String → String → Except String String)
    (pre post : List EnvVar) (v : EnvVar) (ref : SecretRef) (msg : String)
    (hsplit : r.config.EnvironmentVars = pre ++ v :: post)
    (hpre : ∀ w ∈ pre, w.value = "" → ∀ ref2, w.secretRef = some ref2 →
      ∃ s, fetch ref2.name ref2.key = Except.ok s)
    (hv : v.value = "") (href : v.secretRef = some ref)
    (hfail : fetch ref.name ref.key = Except.error msg) :
    r.Resolve fetch =
      Except.error ("access secret " ++ ref.name ++ ": " ++ msg) := by
  unfold Resolver.Resolve
  rw [hsplit, resolveEnvVars_error_at_first fetch pre v post ref msg hpre hv href hfail]
  rfl

/-- C2 witness: one secret-backed declaration whose fetch is denied. -/
theorem resolve_fetch_failure_aborts_witness :
    Resolver.Resolve
      ⟨⟨"svc", "sa@proj.iam.gserviceaccount.com", "proj",
        [⟨"BAZ", "", some ⟨"s", "latest"⟩⟩]⟩, ⟨"tok", "/tmp/c.json"⟩⟩
      (fun _ _ => Except.error ("denied")) =
      Except.error ("access secret " ++ "s" ++ ": " ++ "denied") :=
  resolve_fetch_failure_aborts
    ⟨⟨"svc", "sa@proj.iam.gserviceaccount.com", "proj",
      [⟨"BAZ", "", some ⟨"s", "latest"⟩⟩]⟩, ⟨"tok", "/tmp/c.json"⟩⟩
    (fun _ _ => Except.error ("denied"))
    [] [] ⟨"BAZ", "", some ⟨"s", "latest"⟩⟩ ⟨"s", "latest"⟩ "denied"
    rfl (by simp) rfl rfl rfl

/-- C3 counterexample: with the artifact present, the first cleanup
succeeds and deletes it, but the second cleanup on the resulting
filesystem returns a not-found error — not a no-op success. -/
theorem cleanup_twice_counterexample :
    Credentials.Cleanup ⟨"tok", "/tmp/c.json"⟩ ["/tmp/c.json"] =
      Except.ok [] ∧
    Credentials.Cleanup ⟨"tok", "/tmp/c.json"⟩ [] =
      Except.error ("remove /tmp/c.json: no such file or directory") := by
  constructor <;> rfl

/-- C3 amended: the first cleanup deletes an existing artifact; a second
cleanup then fails with a not-found error rather than succeeding; only a
credential with an empty artifact path cleans up as a no-op success. -/
theorem cleanup_amended (c : Credentials) (fs : List String) :
    (c.CredsFile = "" → c.Cleanup fs = Except.ok fs) ∧
    (c.CredsFile ≠ "" → c.CredsFile ∈ fs →
      c.Cleanup fs = Except.ok (fs.erase c.CredsFile)) ∧
    (c.CredsFile ≠ "" → c.CredsFile ∉ fs →
      c.Cleanup fs =
        Except.error ("remove " ++ c.CredsFile ++ ": no such file or directory")) ∧
    (c.CredsFile ≠ "" → fs.Nodup → c.CredsFile ∈ fs →
      ∃ fs2, c.Cleanup fs = Except.ok fs2 ∧
        c.Cleanup fs2 =
          Except.error ("remove " ++ c.CredsFile ++ ": no such file or directory")) := by
  refine ⟨fun h => ?_, fun h hmem => ?_, fun h hmem => ?_, fun h hnd hmem => ?_⟩
  · simp [Credentials.Cleanup, h]
  · simp [Credentials.Cleanup, osRemove, h, hmem]
  · simp [Credentials.Cleanup, osRemove, h, hmem]
  · refine ⟨fs.erase c.CredsFile, ?_, ?_⟩
    · simp [Credentials.Cleanup, osRemove, h, hmem]
    · simp [Credentials.Cleanup, osRemove, h, hnd.not_mem_erase]

/-- C3 amended witness: empty path is a no-op; a present artifact is
deleted once and the second call errors. -/
theorem cleanup_amended_witness :
    Credentials.Cleanup ⟨"tok", ""⟩ ["/tmp/x"] = Except.ok ["/tmp/x"] ∧
    ∃ fs2,
      Credentials.Cleanup ⟨"tok", "/tmp/c.json"⟩ ["/tmp/c.json"] =
        Except.ok fs2 ∧
      Credentials.Cleanup ⟨"tok", "/tmp/c.json"⟩ fs2 =
        Except.error
          ("remove " ++ "/tmp/c.json" ++ ": no such file or directory") :=
  ⟨(cleanup_amended ⟨"tok", ""⟩ ["/tmp/x"]).1 rfl,
   (cleanup_amended ⟨"tok", "/tmp/c.json"⟩ ["/tmp/c.json"]).2.2.2
     (by decide) (by decide) (by decide)⟩

/-- One entry of the anonymous `env` array that `config.parseEnvVars`
receives: a name, an optional literal value, and the two fields of an
optional `valueFrom.secretKeyRef` (absent JSON fields decode to the empty
string, exactly as in the Go struct). -/
structure RawEnv where
  name : String
  value : String
  secretKeyRefName : String
  secretKeyRefKey : String
deriving DecidableEq, Repr

/-- `config.parseEnvVars`: parses environment variables from the
container env array.  A non-empty literal value wins; otherwise a secret
reference is kept only when both its name and key are non-empty. -/
def parseEnvVars (envArray : List RawEnv) : List EnvVar :=
  envArray.map fun env =>
    if env.value ≠ "" then
      { name := env.name, value := env.value, secretRef := none }
    else if env.secretKeyRefName ≠ "" ∧ env.secretKeyRefKey ≠ "" then
      { name := env.name, value := "",
        secretRef := some { name := env.secretKeyRefName, key := env.secretKeyRefKey } }
    else
      { name := env.name, value := "", secretRef := none }

/-- C4: a source declaration with a non-empty literal parses to a pure
literal declaration — any secret reference also present is dropped — and
the resolver emits exactly `name=value` for it, with the rest of the
resolution independent of the fetch oracle at that declaration. -/
theorem literal_wins (e : RawEnv)
    (fetch : String → String → Except String String) (rest : List EnvVar)
    (hval : e.value ≠ "") :
    parseEnvVars [e] = [⟨e.name, e.value, none⟩] ∧
    resolveEnvVars fetch (⟨e.name, e.value, none⟩ :: rest) =
      (resolveEnvVars fetch rest).map fun tail =>
        (e.name ++ "=" ++ e.value) :: tail := by
  constructor
  · simp [parseEnvVars, hval]
  · simp [resolveEnvVars, hval]

/-- C4 witness: a declaration carrying both the literal `bar` and a
secret reference resolves to `FOO=bar` under an always-failing fetch. -/
theorem literal_wins_witness :
    parseEnvVars [⟨"FOO", "bar", "sec", "latest"⟩] =
      [⟨"FOO", "bar", none⟩] ∧
    resolveEnvVars (fun _ _ => Except.error ("denied"))
        (⟨"FOO", "bar", none⟩ :: []) =
      (resolveEnvVars (fun _ _ => Except.error ("denied")) []).map fun tail =>
        ("FOO" ++ "=" ++ "bar") :: tail :=
  literal_wins ⟨"FOO", "bar", "sec", "latest"⟩
    (fun _ _ => Except.error ("denied")) [] (by decide)

/-- C7: a declaration with no literal and an incomplete secret coordinate
parses to a reference-free declaration, and the resolver emits nothing
for it and does not fail: resolution continues with the remaining
declarations unchanged. -/
theorem underspecified_declaration_skipped (e : RawEnv)
    (fetch : String → String → Except String String) (rest : List EnvVar)
    (hval : e.value = "")
    (href : e.secretKeyRefName = "" ∨ e.secretKeyRefKey = "") :
    parseEnvVars [e] = [⟨e.name, "", none⟩] ∧
    resolveEnvVars fetch (⟨e.name, "", none⟩ :: rest) =
      resolveEnvVars fetch rest := by
  constructor
  · rcases href with h | h <;> simp [parseEnvVars, hval, h]
  · simp [resolveEnvVars]

/-- C7 witness: a declaration with an empty secret name is skipped. -/
theorem underspecified_declaration_skipped_witness :
    parseEnvVars [⟨"EMPTY", "", "", "latest"⟩] = [⟨"EMPTY", "", none⟩] ∧
    resolveEnvVars (fun _ _ => Except.error ("denied"))
        (⟨"EMPTY", "", none⟩ :: [⟨"A", "1", none⟩]) =
      resolveEnvVars (fun _ _ => Except.error ("denied")) [⟨"A", "1", none⟩] :=
  underspecified_declaration_skipped ⟨"EMPTY", "", "", "latest"⟩
    (fun _ _ => Except.error ("denied")) [⟨"A", "1", none⟩]
    (by decide) (Or.inl (by decide))

/-- Go's `strings.Split` for a single-character separator, over strings
modelled as character lists: the list of maximal separator-free runs,
always non-empty, with one more entry than there are separators. -/
def splitOnChar (c : Char) : List Char → List (List Char)
  | [] => [[]]
  | x :: xs =>
    if x = c then [] :: splitOnChar c xs
    else
      match splitOnChar c xs with
      | [] => [[x]]
      | y :: ys => (x :: y) :: ys

/-- `splitOnChar` never returns the empty list. -/
theorem splitOnChar_ne_nil (c : Char) (s : List Char) :
    splitOnChar c s ≠ [] := by
  cases s with
  | nil => simp [splitOnChar]
  | cons x xs =>
    by_cases h : x = c
    · simp [splitOnChar, h]
    · simp only [splitOnChar, if_neg h]
      cases hs : splitOnChar c xs <;> simp

/-- The first piece of a split is the run of characters before the first
separator. -/
theorem splitOnChar_head (c : Char) (s : List Char) :
    (splitOnChar c s).head? = some (s.takeWhile (fun x => x ≠ c)) := by
  induction s with
  | nil => simp [splitOnChar]
  | cons x xs ih =>
    by_cases h : x = c
    · simp [splitOnChar, h]
    · simp only [splitOnChar, if_neg h]
      cases hs : splitOnChar c xs with
      | nil => exact absurd hs (splitOnChar_ne_nil c xs)
      | cons y ys =>
        rw [hs] at ih
        simp only [List.head?_cons, Option.some.injEq] at ih
        simp [h, ih]

/-- A split with a single piece means the string had no separator. -/
theorem splitOnChar_eq_singleton (c : Char) (s b : List Char)
    (h : splitOnChar c s = [b]) : s = b := by
  induction s generalizing b with
  | nil =>
    simp only [splitOnChar, List.cons.injEq, and_true] at h
    exact h
  | cons x xs ih =>
    by_cases hx : x = c
    · simp only [splitOnChar, if_pos hx, List.cons.injEq] at h
      exact absurd h.2 (splitOnChar_ne_nil c xs)
    · simp only [splitOnChar, if_neg hx] at h
      cases hs : splitOnChar c xs with
      | nil => exact absurd hs (splitOnChar_ne_nil c xs)
      | cons y ys =>
        rw [hs] at h
        obtain ⟨hb, hys⟩ := List.cons.inj h
        subst hys
        have hxs := ih y (by rw [hs])
        rw [← hb, hxs]

/-- A split with exactly two pieces locates the unique separator: what
remains from the first separator on is that separator followed by the
second piece. -/
theorem splitOnChar_pair (c : Char) (s : List Char) :
    ∀ a b : List Char, splitOnChar c s = [a, b] →
      s.dropWhile (fun x => x ≠ c) = c :: b := by
  induction s with
  | nil =>
    intro a b h
    simp [splitOnChar] at h
  | cons x xs ih =>
    intro a b h
    by_cases hx : x = c
    · simp only [splitOnChar, if_pos hx, List.cons.injEq] at h
      have hxs := splitOnChar_eq_singleton c xs b h.2
      subst hx hxs
      simp
    · simp only [splitOnChar, if_neg hx] at h
      cases hs : splitOnChar c xs with
      | nil => exact absurd hs (splitOnChar_ne_nil c xs)
      | cons y ys =>
        rw [hs] at h
        obtain ⟨hay, hys⟩ := List.cons.inj h
        have hd := ih y b (by rw [hs, hys])
        rw [List.dropWhile_cons_of_pos (by simp [hx])]
        exact hd

/-- The number of pieces is one more than the number of separators. -/
theorem splitOnChar_length (c : Char) (s : List Char) :
    (splitOnChar c s).length = s.count c + 1 := by
  induction s with
  | nil => simp [splitOnChar]
  | cons x xs ih =>
    by_cases hx : x = c
    · simp [splitOnChar, hx, List.count_cons, ih]
    · simp only [splitOnChar, if_neg hx]
      cases hs : splitOnChar c xs with
      | nil => exact absurd hs (splitOnChar_ne_nil c xs)
      | cons y ys =>
        rw [hs] at ih
        simp only [List.length_cons] at ih ⊢
        simp [List.count_cons, hx, ih]

/-- `config.extractProjectID`: extracts the project ID from a service
account email of the expected shape `name@project-id.iam.gserviceaccount.com`
by splitting at the at sign and taking the first dot-separated label of
the domain; a part count other than two, or an empty first label, is an
error. -/
def extractProjectID (serviceAccount : List Char) : Except String (List Char) :=
  if (splitOnChar '@' serviceAccount).length ≠ 2 then
    Except.error ("invalid service account format: " ++ String.mk serviceAccount)
  else if (splitOnChar '.' ((splitOnChar '@' serviceAccount).getD 1 [])).length < 1 then
    Except.error ("invalid service account domain: " ++
      String.mk ((splitOnChar '@' serviceAccount).getD 1 []))
  else if (splitOnChar '.' ((splitOnChar '@' serviceAccount).getD 1 [])).getD 0 [] = [] then
    Except.error ("could not extract project ID from service account: " ++
      String.mk serviceAccount)
  else
    Except.ok ((splitOnChar '.' ((splitOnChar '@' serviceAccount).getD 1 [])).getD 0 [])

/-- Spec-side characterization of the derived project id, following the
spec's words: the label immediately before the first dot in the domain
part of the target identity, the domain part being everything after the
first at sign. -/
def specProjectId (targetIdentity : List Char) : List Char :=
  ((targetIdentity.dropWhile (fun x => x ≠ '@')).drop 1).takeWhile (fun x => x ≠ '.')

/-- C5: whenever `extractProjectID` accepts an identity string, the
returned project id is the label immediately before the first dot of the
domain part; and an identity string with zero or more than one at sign
is always rejected with an error. -/
theorem extractProjectID_spec (s : List Char) :
    (∀ p, extractProjectID s = Except.ok p → p = specProjectId s) ∧
    (s.count '@' ≠ 1 → ∃ e, extractProjectID s = Except.error e) := by
  constructor
  · intro p hp
    unfold extractProjectID at hp
    by_cases hlen : (splitOnChar '@' s).length ≠ 2
    · rw [if_pos hlen] at hp; cases hp
    · rw [if_neg hlen] at hp
      obtain ⟨a, b, hab⟩ := List.length_eq_two.mp (not_ne_iff.mp hlen)
      rw [hab] at hp
      simp only [List.getD_cons_succ, List.getD_cons_zero] at hp
      cases hsb : splitOnChar '.' b with
      | nil => exact absurd hsb (splitOnChar_ne_nil '.' b)
      | cons y ys =>
        have hy : y = b.takeWhile (fun x => x ≠ '.') := by
          have := splitOnChar_head '.' b
          rw [hsb] at this
          simpa using this
        rw [hsb] at hp
        simp only [List.getD_cons_zero] at hp
        by_cases hnil : y = []
        · rw [if_neg (by simp), if_pos hnil] at hp; cases hp
        · rw [if_neg (by simp), if_neg hnil] at hp
          rw [Except.ok.injEq] at hp
          subst hp
          unfold specProjectId
          rw [splitOnChar_pair '@' s a b hab]
          simpa using hy
  · intro hcount
    have hlen : (splitOnChar '@' s).length ≠ 2 := by
      rw [splitOnChar_length]; omega
    exact ⟨_, by unfold extractProjectID; rw [if_pos hlen]⟩

/-- C5 witness: the canonical service-account email yields `proj`, and a
string without an at sign is rejected. -/
theorem extractProjectID_spec_witness :
    (("proj".data : List Char) =
      specProjectId ("sa@proj.iam.gserviceaccount.com".data)) ∧
    ∃ e, extractProjectID ("no-at-sign".data) = Except.error e :=
  ⟨(extractProjectID_spec ("sa@proj.iam.gserviceaccount.com".data)).1
      ("proj".data) (by rfl),
   (extractProjectID_spec ("no-at-sign".data)).2 (by decide)⟩

/-- The character for a 6-bit value in Go's standard base64 alphabet. -/
def encChar (v : Nat) : Char :=
  if v < 26 then Char.ofNat (65 + v)
  else if v < 52 then Char.ofNat (97 + (v - 26))
  else if v < 62 then Char.ofNat (48 + (v - 52))
  else if v = 62 then '+'
  else '/'

/-- The 6-bit value of a character of the standard base64 alphabet. -/
def decChar (c : Char) : Option Nat :=
  if 'A' ≤ c ∧ c ≤ 'Z' then some (c.toNat - 65)
  else if 'a' ≤ c ∧ c ≤ 'z' then some (c.toNat - 97 + 26)
  else if '0' ≤ c ∧ c ≤ '9' then some (c.toNat - 48 + 52)
  else if c = '+' then some 62
  else if c = '/' then some 63
  else none

/-- Decoding inverts encoding on every 6-bit value. -/
theorem decChar_encChar_fin : ∀ v : Fin 64, decChar (encChar v.val) = some v.val := by
  decide

/-- Decoding inverts encoding on every 6-bit value, `Nat` form. -/
theorem decChar_encChar (v : Nat) (h : v < 64) :
    decChar (encChar v) = some v :=
  decChar_encChar_fin ⟨v, h⟩

/-- The alphabet never contains the padding character. -/
theorem encChar_ne_pad_fin : ∀ v : Fin 64, encChar v.val ≠ '=' := by
  decide

/-- The alphabet never contains the padding character, `Nat` form. -/
theorem encChar_ne_pad (v : Nat) (h : v < 64) : encChar v ≠ '=' :=
  encChar_ne_pad_fin ⟨v, h⟩

/-- Go's `base64.StdEncoding` encoder over byte lists: three bytes per
four characters, the final partial group padded with `=`. -/
def base64Encode : List Nat → List Char
  | [] => []
  | [b0] => [encChar (b0 / 4), encChar (b0 % 4 * 16), '=', '=']
  | [b0, b1] =>
    [encChar (b0 / 4), encChar (b0 % 4 * 16 + b1 / 16), encChar (b1 % 16 * 4), '=']
  | b0 :: b1 :: b2 :: rest =>
    encChar (b0 / 4) :: encChar (b0 % 4 * 16 + b1 / 16) ::
    encChar (b1 % 16 * 4 + b2 / 64) :: encChar (b2 % 64) :: base64Encode rest

/-- Go's `base64.StdEncoding` decoder over character lists: four
characters per group, padding allowed only in the final group, any
character outside the alphabet an error (`none`). -/
def base64Decode : List Char → Option (List Nat)
  | [] => some []
  | c0 :: c1 :: c2 :: c3 :: rest =>
    match decChar c0, decChar c1 with
    | some v0, some v1 =>
      if c2 = '=' ∧ c3 = '=' ∧ rest = [] then
        some [v0 * 4 + v1 / 16]
      else
        match decChar c2 with
        | some v2 =>
          if c3 = '=' ∧ rest = [] then
            some [v0 * 4 + v1 / 16, v1 % 16 * 16 + v2 / 4]
          else
            match decChar c3 with
            | some v3 =>
              (base64Decode rest).map fun tl =>
                (v0 * 4 + v1 / 16) :: (v1 % 16 * 16 + v2 / 4) ::
                (v2 % 4 * 64 + v3) :: tl
            | none => none
        | none => none
    | _, _ => none
  | _ => none

/-- Standard base64 decoding inverts encoding on every byte list. -/
theorem base64_decode_encode :
    ∀ B : List Nat, (∀ b ∈ B, b < 256) → base64Decode (base64Encode B) = some B
  | [], _ => rfl
  | [b0], h => by
    have h0 : b0 < 256 := h b0 (by simp)
    have d0 : decChar (encChar (b0 / 4)) = some (b0 / 4) :=
      decChar_encChar _ (by omega)
    have d1 : decChar (encChar (b0 % 4 * 16)) = some (b0 % 4 * 16) :=
      decChar_encChar _ (by omega)
    simp only [base64Encode, base64Decode, d0, d1]
    simp
    omega
  | [b0, b1], h => by
    have h0 : b0 < 256 := h b0 (by simp)
    have h1 : b1 < 256 := h b1 (by simp)
    have d0 : decChar (encChar (b0 / 4)) = some (b0 / 4) :=
      decChar_encChar _ (by omega)
    have d1 : decChar (encChar (b0 % 4 * 16 + b1 / 16)) =
        some (b0 % 4 * 16 + b1 / 16) :=
      decChar_encChar _ (by omega)
    have d2 : decChar (encChar (b1 % 16 * 4)) = some (b1 % 16 * 4) :=
      decChar_encChar _ (by omega)
    have p2 : encChar (b1 % 16 * 4) ≠ '=' := encChar_ne_pad _ (by omega)
    simp only [base64Encode, base64Decode, d0, d1, d2]
    simp [p2]
    omega
  | b0 :: b1 :: b2 :: rest, h => by
    have h0 : b0 < 256 := h b0 (by simp)
    have h1 : b1 < 256 := h b1 (by simp)
    have h2 : b2 < 256 := h b2 (by simp)
    have ih := base64_decode_encode rest
      (fun b hb => h b (by simp; tauto))
    have d0 : decChar (encChar (b0 / 4)) = some (b0 / 4) :=
      decChar_encChar _ (by omega)
    have d1 : decChar (encChar (b0 % 4 * 16 + b1 / 16)) =
        some (b0 % 4 * 16 + b1 / 16) :=
      decChar_encChar _ (by omega)
    have d2 : decChar (encChar (b1 % 16 * 4 + b2 / 64)) =
        some (b1 % 16 * 4 + b2 / 64) :=
      decChar_encChar _ (by omega)
    have d3 : decChar (encChar (b2 % 64)) = some (b2 % 64) :=
      decChar_encChar _ (by omega)
    have p2 : encChar (b1 % 16 * 4 + b2 / 64) ≠ '=' := encChar_ne_pad _ (by omega)
    have p3 : encChar (b2 % 64) ≠ '=' := encChar_ne_pad _ (by omega)
    simp only [base64Encode, base64Decode, d0, d1, d2, d3]
    simp [p2, p3, ih]
    omega

/-- Encoding a non-empty byte list yields a non-empty payload. -/
theorem base64Encode_ne_nil :
    ∀ B : List Nat, B ≠ [] → base64Encode B ≠ []
  | [], hB => absurd rfl hB
  | [_], _ => by simp [base64Encode]
  | [_, _], _ => by simp [base64Encode]
  | _ :: _ :: _ :: _, _ => by simp [base64Encode]

/-- `secrets.Client.AccessSecretVersion` over an abstract HTTP response:
the status code and the base64 `payload.data` field of the decoded JSON
body.  A status outside 200-299 is an error, an empty payload field is
an error naming the secret path, and otherwise the base64 payload is
decoded to the secret bytes. -/
def AccessSecretVersion (projectID secretName version : String)
    (respStatus : Nat) (respData : List Char) : Except String (List Nat) :=
  if respStatus < 200 ∨ 299 < respStatus then
    Except.error ("expected 200 response status, received " ++ toString respStatus)
  else if respData = [] then
    Except.error ("no value for secret " ++
      ("projects/" ++ projectID ++ "/secrets/" ++ secretName ++
       "/versions/" ++ version))
  else
    match base64Decode respData with
    | none => Except.error ("illegal base64 data")
    | some decodedData => Except.ok decodedData

/-- C6: with a 200 response whose payload field is the standard base64
encoding of a non-empty byte sequence `B`, the fetch returns exactly `B`;
with a 200 response whose payload field is the empty string, the fetch
fails with the no-value error naming the secret path. -/
theorem accessSecretVersion_roundtrip (projectID secretName version : String)
    (B : List Nat) (hB : ∀ b ∈ B, b < 256) (hne : B ≠ []) :
    AccessSecretVersion projectID secretName version 200 (base64Encode B) =
      Except.ok B ∧
    AccessSecretVersion projectID secretName version 200 [] =
      Except.error ("no value for secret " ++
        ("projects/" ++ projectID ++ "/secrets/" ++ secretName ++
         "/versions/" ++ version)) := by
  constructor
  · unfold AccessSecretVersion
    rw [if_neg (by omega), if_neg (base64Encode_ne_nil B hne),
      base64_decode_encode B hB]
  · unfold AccessSecretVersion
    rw [if_neg (by omega), if_pos rfl]

/-- C6 witness: the bytes of `qux` survive the round trip, and the empty
payload fails. -/
theorem accessSecretVersion_roundtrip_witness :
    AccessSecretVersion "proj" "s" "latest" 200
        (base64Encode [113, 117, 120]) =
      Except.ok [113, 117, 120] ∧
    AccessSecretVersion "proj" "s" "latest" 200 [] =
      Except.error ("no value for secret " ++
        ("projects/" ++ "proj" ++ "/secrets/" ++ "s" ++
         "/versions/" ++ "latest")) :=
  accessSecretVersion_roundtrip "proj" "s" "latest" [113, 117, 120]
    (by decide) (by decide)

/-- `auth.randomLower`: a random lowercase string of length `n`, with the
RNG modelled as the stream `r` of successive `rand.IntN(26)` draws. -/
def randomLower (n : Nat) (r : Nat → Fin 26) : String :=
  String.mk ((List.range n).map fun i => Char.ofNat ((r i).val + 97))

/-- JSON documents as produced by `json.Marshal`, keeping a
`json.RawMessage` embedded verbatim as a `raw` leaf. -/
inductive JsonValue where
  | str : String → JsonValue
  | arr : List JsonValue → JsonValue
  | obj : List (String × JsonValue) → JsonValue
  | raw : String → JsonValue

/-- `auth.createDelegatedCredsFile`: the path and the JSON document of
the temporary credentials file for delegated impersonation, with the
platform temp directory and the RNG as inputs; the Go function then
writes the document to that path with owner-only permissions. -/
def createDelegatedCredsFile (currentADC serviceAccountEmail tempDir : String)
    (r : Nat → Fin 26) : String × JsonValue :=
  (tempDir ++ "/cloudrun-local-creds-" ++ randomLower 8 r ++ ".json",
   JsonValue.obj
     [("delegates",
       JsonValue.arr [JsonValue.str ("projects/-/serviceAccounts/" ++ serviceAccountEmail)]),
      ("type", JsonValue.str ("impersonated_service_account")),
      ("service_account_impersonation_url",
       JsonValue.str ("https://iamcredentials.googleapis.com/v1/projects/-/serviceAccounts/" ++
         serviceAccountEmail ++ ":generateAccessToken")),
      ("source_credentials", JsonValue.raw currentADC)])

/-- Every character produced by a draw below 26 is a lowercase letter. -/
theorem lower_char_bounds :
    ∀ v : Fin 26, 'a' ≤ Char.ofNat (v.val + 97) ∧ Char.ofNat (v.val + 97) ≤ 'z' := by
  decide

/-- C8: the credential artifact is the JSON object with the
impersonated-service-account type, the impersonation endpoint for the
target, the singleton delegates list for the target, and the standing
credential embedded verbatim; its path lives in the temp directory and
matches the pattern with eight random lowercase letters. -/
theorem createDelegatedCredsFile_spec (adc sa tempDir : String)
    (r : Nat → Fin 26) :
    (createDelegatedCredsFile adc sa tempDir r).2 =
      JsonValue.obj
        [("delegates",
          JsonValue.arr [JsonValue.str ("projects/-/serviceAccounts/" ++ sa)]),
         ("type", JsonValue.str ("impersonated_service_account")),
         ("service_account_impersonation_url",
          JsonValue.str
            ("https://iamcredentials.googleapis.com/v1/projects/-/serviceAccounts/" ++
              sa ++ ":generateAccessToken")),
         ("source_credentials", JsonValue.raw adc)] ∧
    ∃ suffix : String,
      (createDelegatedCredsFile adc sa tempDir r).1 =
        tempDir ++ "/cloudrun-local-creds-" ++ suffix ++ ".json" ∧
      suffix.length = 8 ∧
      ∀ c ∈ suffix.data, 'a' ≤ c ∧ c ≤ 'z' := by
  refine ⟨rfl, randomLower 8 r, rfl, ?_, ?_⟩
  · simp [randomLower, String.length]
  · intro c hc
    simp only [randomLower, String.data, List.mem_map, List.mem_range] at hc
    obtain ⟨i, _, hi⟩ := hc
    rw [← hi]
    exact lower_char_bounds (r i)

/-- `auth.fetchImpersonatedAccessToken` over abstract collaborators: the
outcome of the local OAuth2 credential and token lookup (errors arriving
already wrapped), and the token-exchange response as its status code,
body text, and decoded `accessToken` field (a missing JSON field decodes
to the empty string).  Only the caller's own token is checked for
emptiness; the exchanged token is returned as is. -/
def fetchImpersonatedAccessToken (credsTokenResult : Except String String)
    (respStatus : Nat) (respBody : String) (respAccessToken : String) :
    Except String String :=
  match credsTokenResult with
  | Except.error e => Except.error e
  | Except.ok accessToken =>
    if accessToken = "" then Except.error ("got empty access token")
    else if respStatus ≠ 200 then
      Except.error ("failed to generate access token (status " ++
        toString respStatus ++ "): " ++ respBody)
    else Except.ok respAccessToken

/-- The outcome of the marshal-and-write step of
`auth.createDelegatedCredsFile`.  Go's `os.WriteFile` opens the file
with `O_CREATE` before writing, so a failure can happen before the file
exists (`json.Marshal` error, open error) or after it was created (write
or close error), in which case the partially written file stays on disk:
`createDelegatedCredsFile` never removes it on error. -/
inductive WriteOutcome where
  | success
  | failAfterCreate
  | failBeforeCreate
deriving DecidableEq, Repr

/-- `auth.GetImpersonatedCredentials` over abstract collaborators, with
the filesystem as the list of existing paths threaded through: read the
application default credentials, fetch the impersonated token, and only
then marshal and write the credentials file.  `writeResult` is the
outcome of that last step: on success the artifact path is returned and
the file exists; on failure no path is returned, and the file exists
exactly when the failure happened after `os.WriteFile` created it. -/
def GetImpersonatedCredentials (serviceAccountEmail : String)
    (adcResult : Except String String)
    (credsTokenResult : Except String String) (respStatus : Nat)
    (respBody : String) (respAccessToken : String)
    (writeResult : WriteOutcome) (tempDir : String) (r : Nat → Fin 26)
    (fs : List String) : Except String Credentials × List String :=
  match adcResult with
  | Except.error e => (Except.error e, fs)
  | Except.ok currentADC =>
    match fetchImpersonatedAccessToken credsTokenResult respStatus respBody
        respAccessToken with
    | Except.error e =>
      (Except.error ("fetch impersonated access token: " ++ e), fs)
    | Except.ok accessToken =>
      match writeResult with
      | WriteOutcome.success =>
        (Except.ok
          ⟨accessToken,
           (createDelegatedCredsFile currentADC serviceAccountEmail tempDir r).1⟩,
         (createDelegatedCredsFile currentADC serviceAccountEmail tempDir r).1 :: fs)
      | WriteOutcome.failAfterCreate =>
        (Except.error ("create credentials file: write error"),
         (createDelegatedCredsFile currentADC serviceAccountEmail tempDir r).1 :: fs)
      | WriteOutcome.failBeforeCreate =>
        (Except.error ("create credentials file: write error"), fs)

/-- C9 counterexample: an artifact write that fails after `os.WriteFile`
created the file returns an error, yet the credential artifact file is
on disk afterwards. -/
theorem getImpersonatedCredentials_write_failure_counterexample :
    (GetImpersonatedCredentials "sa" (Except.ok "adc") (Except.ok "tok")
      200 "" "" WriteOutcome.failAfterCreate "/tmp" (fun _ => (0 : Fin 26))
      []).1 = Except.error ("create credentials file: write error") ∧
    (GetImpersonatedCredentials "sa" (Except.ok "adc") (Except.ok "tok")
      200 "" "" WriteOutcome.failAfterCreate "/tmp" (fun _ => (0 : Fin 26))
      []).2 = ["/tmp/cloudrun-local-creds-aaaaaaaa.json"] := by
  constructor <;> rfl

/-- C9 amended: when credential acquisition returns an error, the
filesystem is unchanged — the artifact is only written after the
standing credentials were read and the impersonated token successfully
obtained, and a failed write returns no path — except that a write
failing after file creation leaves exactly the artifact file on disk. -/
theorem getImpersonatedCredentials_error_amended (sa : String)
    (adcResult credsTokenResult : Except String String) (respStatus : Nat)
    (respBody respAccessToken : String) (writeResult : WriteOutcome)
    (tempDir : String) (r : Nat → Fin 26) (fs : List String) (e : String)
    (h : (GetImpersonatedCredentials sa adcResult credsTokenResult respStatus
            respBody respAccessToken writeResult tempDir r fs).1 =
          Except.error e) :
    (GetImpersonatedCredentials sa adcResult credsTokenResult respStatus
        respBody respAccessToken writeResult tempDir r fs).2 = fs ∨
      (writeResult = WriteOutcome.failAfterCreate ∧
        (∃ adc, adcResult = Except.ok adc ∧
          (GetImpersonatedCredentials sa adcResult credsTokenResult respStatus
            respBody respAccessToken writeResult tempDir r fs).2 =
            (createDelegatedCredsFile adc sa tempDir r).1 :: fs) ∧
        ∃ tok, fetchImpersonatedAccessToken credsTokenResult respStatus
          respBody respAccessToken = Except.ok tok) := by
  unfold GetImpersonatedCredentials at h ⊢
  cases adcResult with
  | error e2 => exact Or.inl rfl
  | ok adc =>
    cases hf : fetchImpersonatedAccessToken credsTokenResult respStatus
        respBody respAccessToken with
    | error e2 => exact Or.inl rfl
    | ok tok =>
      cases writeResult with
      | success => simp [hf] at h
      | failAfterCreate => exact Or.inr ⟨rfl, ⟨adc, rfl, rfl⟩, tok, rfl⟩
      | failBeforeCreate => exact Or.inl rfl

/-- C9 amended witness: a mid-write failure on a concrete acquisition
leaves exactly the artifact file. -/
theorem getImpersonatedCredentials_error_amended_witness :
    (GetImpersonatedCredentials "sa" (Except.ok "adc") (Except.ok "tok")
        200 "" "" WriteOutcome.failAfterCreate "/tmp" (fun _ => (0 : Fin 26))
        []).2 = [] ∨
      (WriteOutcome.failAfterCreate = WriteOutcome.failAfterCreate ∧
        (∃ adc, (Except.ok "adc" : Except String String) = Except.ok adc ∧
          (GetImpersonatedCredentials "sa" (Except.ok "adc") (Except.ok "tok")
            200 "" "" WriteOutcome.failAfterCreate "/tmp"
            (fun _ => (0 : Fin 26)) []).2 =
            (createDelegatedCredsFile adc "sa" "/tmp"
              (fun _ => (0 : Fin 26))).1 :: []) ∧
        ∃ tok, fetchImpersonatedAccessToken (Except.ok "tok") 200 "" "" =
          Except.ok tok) :=
  getImpersonatedCredentials_error_amended "sa" (Except.ok "adc")
    (Except.ok "tok") 200 "" "" WriteOutcome.failAfterCreate "/tmp"
    (fun _ => (0 : Fin 26)) [] "create credentials file: write error" rfl

/-- C10: a 200 token-exchange response with a missing or empty
`accessToken` field is accepted — the emptiness check guards only the
caller's own token — so acquisition succeeds and returns a credential
whose bearer token is the empty string. -/
theorem emptyImpersonatedToken_accepted (sa adc callerToken respBody tempDir : String)
    (r : Nat → Fin 26) (fs : List String) (h : callerToken ≠ "") :
    fetchImpersonatedAccessToken (Except.ok callerToken) 200 respBody "" =
      Except.ok "" ∧
    ∃ c : Credentials,
      (GetImpersonatedCredentials sa (Except.ok adc) (Except.ok callerToken)
        200 respBody "" WriteOutcome.success tempDir r fs).1 = Except.ok c ∧
      c.AccessToken = "" := by
  have hf : fetchImpersonatedAccessToken (Except.ok callerToken) 200 respBody "" =
      Except.ok "" := by
    simp [fetchImpersonatedAccessToken, h]
  refine ⟨hf, ⟨"", (createDelegatedCredsFile adc sa tempDir r).1⟩, ?_, rfl⟩
  unfold GetImpersonatedCredentials
  rw [hf]

/-- C10 witness: a concrete acquisition with an empty exchanged token
succeeds. -/
theorem emptyImpersonatedToken_accepted_witness :
    fetchImpersonatedAccessToken (Except.ok "tok") 200 "body" "" =
      Except.ok "" ∧
    ∃ c : Credentials,
      (GetImpersonatedCredentials "sa" (Except.ok "adc-json") (Except.ok "tok")
        200 "body" "" WriteOutcome.success "/tmp" (fun _ => (0 : Fin 26))
        []).1 = Except.ok c ∧
      c.AccessToken = "" :=
  emptyImpersonatedToken_accepted "sa" "adc-json" "tok" "body" "/tmp"
    (fun _ => (0 : Fin 26)) [] (by decide)
